import Mathlib

/-!
Verification of the steam-limiter update webservice's classification and
bundle-resolution engine (`updateapp/main.py`).

The engine classifies a client network address into an ISP index using a
sorted IPv4 netblock table (binary search) with a textual-prefix fallback
for IPv6, then resolves the index through a static ISP registry into a
bundle of content-delivery rules.

Addresses are modelled as `List Char` (Python `str`), machine integers as
`Int`/`Nat` (Python ints are unbounded), and fallible operations (Python
exceptions) as `Option`.  The `while` loop of the binary search is modelled
with an explicit fuel argument; sufficiency of the fuel supplied by the
top-level entry point is proved separately.
-/

namespace SteamLimiter

/-- One row of `ip_match.ip_table`: an IPv4 range `[low, high]` tagged with
an ISP index (the source stores these as 3-tuples; fields are named after
the spec's NetblockRange). -/
structure NetblockEntry where
  low : Int
  high : Int
  isp : Int
deriving DecidableEq

/-- Default entry used for the (provably unreachable) out-of-range list
access inside the search loop; Python would raise IndexError there. -/
def dfltEntry : NetblockEntry := ⟨0, 0, 0⟩

/-- The body of `find_netblock`'s `while low <= high` binary-search loop,
with an explicit fuel argument standing in for the loop's termination.
The source names `mid = (low + high) / 2` (Python floor division, hence
`Int.fdiv`) and `item = table [mid]`; they are inlined here. Indices stay
in range for every reachable state (proved below), so `getD` never takes
its default there; Python would raise IndexError. -/
def find_loop (table : List NetblockEntry) (ipv4 : Int) :
    Nat → Int → Int → Option Int
  | 0, _, _ => none
  | fuel + 1, low, high =>
    if low ≤ high then
      if (table.getD (Int.fdiv (low + high) 2).toNat dfltEntry).low ≥ ipv4 then
        -- Move down
        find_loop table ipv4 fuel low (Int.fdiv (low + high) 2 - 1)
      else if (table.getD (Int.fdiv (low + high) 2).toNat dfltEntry).high ≥ ipv4 then
        -- We have a match
        some (table.getD (Int.fdiv (low + high) 2).toNat dfltEntry).isp
      else
        -- Move up
        find_loop table ipv4 fuel (Int.fdiv (low + high) 2 + 1) high
    else
      some (-1)

/-- The binary search of `find_netblock` over a table, from
`low = 0, high = len (table) - 1`.  The fuel `table.length + 1` is
sufficient (proved below), so the result is never `none`. -/
def find_in_table (table : List NetblockEntry) (ipv4 : Int) : Option Int :=
  find_loop table ipv4 (table.length + 1) 0 ((table.length : Int) - 1)

/-- Two IPv4 ranges have no address in common (for ranges with
`low ≤ high` this is exactly interval disjointness). -/
def disjointRanges (e₁ e₂ : NetblockEntry) : Prop :=
  e₁.high < e₂.low ∨ e₂.high < e₁.low

instance (e₁ e₂ : NetblockEntry) : Decidable (disjointRanges e₁ e₂) := by
  unfold disjointRanges; infer_instance

/-- The documented invariant of `ip_match.ip_table`: sorted ascending by
`low`, pairwise non-overlapping, and `low ≤ high` for every entry. -/
def sortedTable (t : List NetblockEntry) : Prop :=
  List.Pairwise (fun e₁ e₂ => e₁.low ≤ e₂.low) t ∧
  List.Pairwise disjointRanges t ∧
  ∀ e ∈ t, e.low ≤ e.high

instance (t : List NetblockEntry) : Decidable (sortedTable t) := by
  unfold sortedTable; infer_instance

/-- A sorted, disjoint table of nonempty ranges is a strictly increasing
chain: every earlier range ends before a later one starts. -/
lemma sortedTable_chain {t : List NetblockEntry} (h : sortedTable t) :
    List.Pairwise (fun e₁ e₂ => e₁.high < e₂.low) t := by
  obtain ⟨hlow, hdisj, hlh⟩ := h
  refine (hlow.and hdisj).imp_of_mem ?_
  intro e₁ e₂ h₁ h₂ hr
  obtain ⟨hle, hd | hd⟩ := hr
  · exact hd
  · have := hlh e₂ h₂
    omega

/-- Index-level uniqueness of a strict match (`low < a ≤ high`) in a
chained table. -/
lemma strict_match_unique {t : List NetblockEntry} {a : Int}
    (hc : List.Pairwise (fun e₁ e₂ => e₁.high < e₂.low) t)
    {i j : Nat} (hi : i < t.length) (hj : j < t.length)
    (hmi : (t.getD i dfltEntry).low < a ∧ a ≤ (t.getD i dfltEntry).high)
    (hmj : (t.getD j dfltEntry).low < a ∧ a ≤ (t.getD j dfltEntry).high) :
    i = j := by
  rw [List.getD_eq_getElem _ _ hi] at hmi
  rw [List.getD_eq_getElem _ _ hj] at hmj
  rcases Nat.lt_trichotomy i j with hij | hij | hij
  · have := List.pairwise_iff_getElem.mp hc i j hi hj hij
    omega
  · exact hij
  · have := List.pairwise_iff_getElem.mp hc j i hj hi hij
    omega

/-- Main loop lemma: starting from a window whose outside is already known
not to contain the target (everything below the window ends before `a`,
everything above starts at or after `a`), the loop either returns the ISP
of a strictly matching entry, or returns `-1` and no entry of the table
strictly matches. -/
lemma find_loop_correct (t : List NetblockEntry) (a : Int)
    (hc : List.Pairwise (fun e₁ e₂ => e₁.high < e₂.low) t)
    (hall : ∀ e ∈ t, e.low ≤ e.high) :
    ∀ (fuel : Nat) (low high : Int),
      (high + 1 - low).toNat < fuel →
      0 ≤ low → high < (t.length : Int) →
      (∀ i : Nat, i < t.length → (i : Int) < low →
        (t.getD i dfltEntry).high < a) →
      (∀ i : Nat, i < t.length → high < (i : Int) →
        a ≤ (t.getD i dfltEntry).low) →
      (∃ j : Nat, j < t.length ∧
          (t.getD j dfltEntry).low < a ∧ a ≤ (t.getD j dfltEntry).high ∧
          find_loop t a fuel low high = some ((t.getD j dfltEntry).isp)) ∨
      ((∀ j : Nat, j < t.length →
          ¬((t.getD j dfltEntry).low < a ∧ a ≤ (t.getD j dfltEntry).high)) ∧
        find_loop t a fuel low high = some (-1)) := by
  intro fuel
  induction fuel with
  | zero => intro low high hfuel _ _ _ _; omega
  | succ fuel ih =>
    intro low high hfuel h0 hlen hbelow habove
    by_cases hlh : low ≤ high
    · have hmid : Int.fdiv (low + high) 2 = (low + high) / 2 :=
        Int.fdiv_eq_ediv _ (by norm_num)
      have hm1 : low ≤ Int.fdiv (low + high) 2 := by rw [hmid]; omega
      have hm2 : Int.fdiv (low + high) 2 ≤ high := by rw [hmid]; omega
      have hmlen : (Int.fdiv (low + high) 2).toNat < t.length := by omega
      simp only [find_loop, if_pos hlh]
      by_cases h1 : (t.getD (Int.fdiv (low + high) 2).toNat dfltEntry).low ≥ a
      · -- Move down
        rw [if_pos h1]
        refine ih low (Int.fdiv (low + high) 2 - 1) (by omega) h0 (by omega)
          hbelow ?_
        intro i hilen hgt
        by_cases hhi : high < (i : Int)
        · exact habove i hilen hhi
        have hge : (Int.fdiv (low + high) 2).toNat ≤ i := by omega
        rcases Nat.eq_or_lt_of_le hge with hcase | hcase
        · rw [← hcase]; exact h1
        · -- entries after mid start even later
          have hpair := List.pairwise_iff_getElem.mp hc _ i hmlen hilen hcase
          have hmm := hall _ (List.getElem_mem hmlen)
          rw [List.getD_eq_getElem _ _ hilen]
          rw [List.getD_eq_getElem _ _ hmlen] at h1
          omega
      · by_cases h2 : (t.getD (Int.fdiv (low + high) 2).toNat dfltEntry).high ≥ a
        · -- We have a match at mid
          rw [if_neg h1, if_pos h2]
          exact Or.inl ⟨(Int.fdiv (low + high) 2).toNat, hmlen, by omega, h2, rfl⟩
        · -- Move up
          rw [if_neg h1, if_neg h2]
          refine ih (Int.fdiv (low + high) 2 + 1) high (by omega) (by omega)
            hlen ?_ habove
          intro i hilen hlt
          by_cases hlo : (i : Int) < low
          · exact hbelow i hilen hlo
          have hle : i ≤ (Int.fdiv (low + high) 2).toNat := by omega
          rcases Nat.eq_or_lt_of_le hle with hcase | hcase
          · rw [hcase]; omega
          · -- entries before mid end even earlier
            have hpair := List.pairwise_iff_getElem.mp hc i _ hilen hmlen hcase
            rw [List.getD_eq_getElem _ _ hilen]
            rw [List.getD_eq_getElem _ _ hmlen] at h1
            omega
    · -- low > high: window empty, no entry can match
      have hres : find_loop t a (fuel + 1) low high = some (-1) := by
        simp only [find_loop, if_neg hlh]
      refine Or.inr ⟨?_, hres⟩
      intro j hjlen hmatch
      rcases Int.lt_or_le (j : Int) low with hcase | hcase
      · have := hbelow j hjlen hcase
        omega
      · have := habove j hjlen (by omega)
        omega

/-- The search finds the ISP of the unique entry strictly containing the
target: `low < a ≤ high`. -/
lemma search_hits {t : List NetblockEntry} {a : Int} (hs : sortedTable t)
    {e : NetblockEntry} (he : e ∈ t) (h1 : e.low < a) (h2 : a ≤ e.high) :
    find_in_table t a = some e.isp := by
  obtain ⟨i, hi, hie⟩ := List.mem_iff_getElem.mp he
  have hc := sortedTable_chain hs
  have hmain := find_loop_correct t a hc hs.2.2 (t.length + 1) 0
      ((t.length : Int) - 1) (by omega) (by omega) (by omega)
      (by intro j _ hj; omega) (by intro j hjlen hj; omega)
  have hie' : t.getD i dfltEntry = e := by
    rw [List.getD_eq_getElem _ _ hi, hie]
  rcases hmain with ⟨j, hj, hj1, hj2, hres⟩ | ⟨hnone, hres⟩
  · have hij : i = j :=
      strict_match_unique hc hi hj (by rw [hie']; exact ⟨h1, h2⟩) ⟨hj1, hj2⟩
    rw [find_in_table, hres, ← hij, hie']
  · exact absurd (by rw [hie']; exact ⟨h1, h2⟩) (hnone i hi)

/-- When no entry strictly contains the target the search returns `-1`. -/
lemma search_misses {t : List NetblockEntry} {a : Int} (hs : sortedTable t)
    (h : ∀ e ∈ t, ¬(e.low < a ∧ a ≤ e.high)) :
    find_in_table t a = some (-1) := by
  have hc := sortedTable_chain hs
  have hmain := find_loop_correct t a hc hs.2.2 (t.length + 1) 0
      ((t.length : Int) - 1) (by omega) (by omega) (by omega)
      (by intro j _ hj; omega) (by intro j hjlen hj; omega)
  rcases hmain with ⟨j, hj, hj1, hj2, hres⟩ | ⟨_, hres⟩
  · have hmem : t.getD j dfltEntry ∈ t := by
      rw [List.getD_eq_getElem _ _ hj]; exact List.getElem_mem hj
    exact absurd ⟨hj1, hj2⟩ (h _ hmem)
  · rw [find_in_table, hres]

/-! ### Python string primitives used by the classifier -/

/-- ASCII upper-casing of one character, as Python 2 `str.upper` does for
the byte strings handled here: `a`..`z` map to `A`..`Z`, everything else
is left alone. -/
def upperChar (c : Char) : Char :=
  match c with
  | 'a' => 'A' | 'b' => 'B' | 'c' => 'C' | 'd' => 'D' | 'e' => 'E'
  | 'f' => 'F' | 'g' => 'G' | 'h' => 'H' | 'i' => 'I' | 'j' => 'J'
  | 'k' => 'K' | 'l' => 'L' | 'm' => 'M' | 'n' => 'N' | 'o' => 'O'
  | 'p' => 'P' | 'q' => 'Q' | 'r' => 'R' | 's' => 'S' | 't' => 'T'
  | 'u' => 'U' | 'v' => 'V' | 'w' => 'W' | 'x' => 'X' | 'y' => 'Y'
  | 'z' => 'Z'
  | other => other

/-- Python `ip.upper ()`. -/
def pyUpper (s : List Char) : List Char := s.map upperChar

/-- Python `ip.startswith (p)`. -/
def pyStartswith : List Char → List Char → Bool
  | [], _ => true
  | _ :: _, [] => false
  | p :: ps, c :: cs => (p == c) && pyStartswith ps cs

/-- Python `string.split (text, sep)` for a one-character separator:
`""` splits to `[""]`, and consecutive separators yield empty fields. -/
def pySplit (sep : Char) : List Char → List (List Char)
  | [] => [[]]
  | c :: cs =>
    if c = sep then [] :: pySplit sep cs
    else
      match pySplit sep cs with
      | [] => [[c]]   -- unreachable: pySplit never returns []
      | p :: ps => (c :: p) :: ps

/-- Numeric value of a digit string, most significant first. -/
def digitsToNat (s : List Char) : Nat :=
  s.foldl (fun acc c => acc * 10 + (c.toNat - 48)) 0

/-- Python 2 `int (item)` on the strings that occur here: an optional
leading minus sign followed by one or more ASCII digits parses to a
number, anything else raises ValueError (modelled as `none`).  (Python
also tolerates surrounding whitespace and a leading `+`, forms that can
never reach this code from a dotted-quad field.) -/
def pyInt (s : List Char) : Option Int :=
  match s with
  | [] => none
  | c :: rest =>
    if c = '-' then
      if rest ≠ [] ∧ rest.all Char.isDigit then some (-(digitsToNat rest : Int))
      else none
    else
      if (c :: rest).all Char.isDigit then some ((digitsToNat (c :: rest) : Int))
      else none

/-- `stringip_to_number`: split on `.` and fold each field into the total
with `total = (total << 8) + int (item)`; a field that `int` rejects
raises (returns `none`).  No octet count or range validation is done. -/
def stringip_to_number (text : List Char) : Option Int :=
  (pySplit '.' text).foldlM (fun total item =>
    (pyInt item).map (fun v => total * 256 + v)) (0 : Int)

/-! ### The classifier -/

/-- The IPv6 prefix table `ipv6_prefixes`, in source order.  The source
stores it as a Python dict whose iteration order is unspecified; the
prefixes are pairwise distinct and of equal length, so at most one can
match a given address and the scan result does not depend on the order. -/
def ipv6_prefixes : List (List Char × Int) :=
  [("2001:4400:".toList, 0),    -- TelstraClear New Zealand
   ("2001:4478:".toList, 12),   -- iiNet Australia
   ("2001:4479:".toList, 12),   -- iiNet Australia
   ("2001:44B8:".toList, 11),   -- Internode Australia
   ("2406:E000:".toList, 2)]    -- Snap! New Zealand

/-- The `for prefix in ipv6_prefixes.items ()` scan of `find_netblock`:
the ISP index of the first entry whose text starts the (already
upper-cased) address, if any. -/
def scan_v6 (u : List Char) : Option Int :=
  match ipv6_prefixes.find? (fun pr => pyStartswith pr.1 u) with
  | some pr => some pr.2
  | none => none

/-- The local-loopback literal `'127.0.0.1'`. -/
def loopbackStr : List Char := "127.0.0.1".toList

/-- The known-good test address `'203.167.129.4'` substituted for
loopback. -/
def testIpStr : List Char := "203.167.129.4".toList

/-- The `if ip == '127.0.0.1': ip = '203.167.129.4'` substitution at the
top of `find_netblock` (a Python `int` never equals a `str`, so this
only ever fires for string input). -/
def substAddr (s : List Char) : List Char :=
  if s = loopbackStr then testIpStr else s

/-- Modelled from the spec: the netblock table `ip_match.ip_table` is
imported from a generated module that is not part of the sources under
verification.  Per the spec it is a sorted list of disjoint IPv4 ranges
tagged with ISP indices; the spec's scenarios fix that `203.167.129.4`
classifies to index 0 (TelstraClear New Zealand), that some addresses
classify to index 30 (Internet Solutions, South Africa), and that
`8.8.8.8` is in no range.  This minimal table realises those scenarios
(numbers are packed dotted quads: 196.38.0.0–196.38.255.255 and
203.167.128.0–203.167.191.255). -/
def ip_table : List NetblockEntry :=
  [⟨3290824704, 3290890239, 30⟩,
   ⟨3416752128, 3416768511, 0⟩]

/-- The argument of `find_netblock`: a Python `str` (or `unicode`)
address, or an already-packed numeric address. -/
inductive IpInput where
  | str (s : List Char)
  | num (n : Int)

/-- The string path of `find_netblock` (after loopback substitution):
IPv6 textual-prefix scan for strings containing a colon (returning `-1`
on a miss), otherwise `stringip_to_number` followed by the binary search
over `ip_table`.  A `none` result models an uncaught Python exception
(`int` ValueError on a malformed field). -/
def find_netblock_str (s : List Char) : Option Int :=
  if ':' ∈ s then
    match scan_v6 (pyUpper s) with
    | some isp => some isp
    | none => some (-1)
  else
    match stringip_to_number s with
    | some v => find_in_table ip_table v
    | none => none

/-- Dispatch of `find_netblock` on the two input shapes (see
`find_netblock_str` for the string path). -/
def find_netblock (ip : IpInput) : Option Int :=
  match ip with
  | .num n => find_in_table ip_table n
  | .str s0 => find_netblock_str (substAddr s0)

/-! ### Facts about the string primitives -/

/-- ASCII upper-casing maps only `:` to `:`. -/
lemma upperChar_eq_colon {c : Char} (h : upperChar c = ':') : c = ':' := by
  unfold upperChar at h
  split at h
  all_goals first
  | exact absurd h (by decide)
  | exact h

/-- Every character of a matched pattern is the image of a character of
the scanned string. -/
lemma pyStartswith_map {f : Char → Char} {p s : List Char}
    (h : pyStartswith p (s.map f) = true) : ∀ c ∈ p, ∃ d ∈ s, f d = c := by
  induction p generalizing s with
  | nil => intro c hc; exact absurd hc (by simp)
  | cons x xs ih =>
    cases s with
    | nil => simp [pyStartswith] at h
    | cons d ds =>
      simp only [List.map_cons, pyStartswith, Bool.and_eq_true, beq_iff_eq] at h
      intro c hc
      rcases List.mem_cons.mp hc with rfl | hc
      · exact ⟨d, List.mem_cons_self d ds, h.1.symm⟩
      · obtain ⟨e, he, hfe⟩ := ih h.2 c hc
        exact ⟨e, List.mem_cons_of_mem d he, hfe⟩

/-- Two equally long patterns matching the same string are equal. -/
lemma pyStartswith_eq {p₁ p₂ l : List Char} (h₁ : pyStartswith p₁ l = true)
    (h₂ : pyStartswith p₂ l = true) (hlen : p₁.length = p₂.length) :
    p₁ = p₂ := by
  induction p₁ generalizing p₂ l with
  | nil =>
    cases p₂ with
    | nil => rfl
    | cons y ys => simp at hlen
  | cons x xs ih =>
    cases p₂ with
    | nil => simp at hlen
    | cons y ys =>
      cases l with
      | nil => simp [pyStartswith] at h₁
      | cons c cs =>
        simp only [pyStartswith, Bool.and_eq_true, beq_iff_eq] at h₁ h₂
        simp only [List.length_cons, Nat.add_right_cancel_iff] at hlen
        rw [h₁.1, h₂.1, ih h₁.2 h₂.2 hlen]

/-- `pySplit` never produces the empty list of fields. -/
lemma pySplit_ne_nil (sep : Char) (s : List Char) : pySplit sep s ≠ [] := by
  cases s with
  | nil => simp [pySplit]
  | cons c cs =>
    unfold pySplit
    by_cases h : c = sep
    · simp [h]
    · simp only [if_neg h]
      rcases h' : pySplit sep cs with _ | ⟨p, ps⟩ <;> simp

/-- Every character of a split string is the separator or lies in one of
the fields. -/
lemma mem_pySplit (sep : Char) {s : List Char} {c : Char} (hc : c ∈ s) :
    c = sep ∨ ∃ p ∈ pySplit sep s, c ∈ p := by
  induction s with
  | nil => cases hc
  | cons x xs ih =>
    by_cases hx : x = sep
    · have hsx : pySplit sep (x :: xs) = [] :: pySplit sep xs := by
        simp [pySplit, if_pos hx]
      rcases List.mem_cons.mp hc with heq | hc'
      · exact Or.inl (heq.trans hx)
      · rcases ih hc' with h | ⟨p, hp, hcp⟩
        · exact Or.inl h
        · exact Or.inr ⟨p, by rw [hsx]; exact List.mem_cons_of_mem _ hp, hcp⟩
    · obtain ⟨p₀, ps, hps⟩ : ∃ p₀ ps, pySplit sep xs = p₀ :: ps := by
        rcases h' : pySplit sep xs with _ | ⟨p₀, ps⟩
        · exact absurd h' (pySplit_ne_nil sep xs)
        · exact ⟨p₀, ps, rfl⟩
      have hsx : pySplit sep (x :: xs) = (x :: p₀) :: ps := by
        simp [pySplit, if_neg hx, hps]
      rcases List.mem_cons.mp hc with heq | hc'
      · refine Or.inr ⟨x :: p₀, ?_, ?_⟩
        · rw [hsx]; exact List.mem_cons_self _ _
        · rw [heq]; exact List.mem_cons_self _ _
      · rcases ih hc' with h | ⟨p, hp, hcp⟩
        · exact Or.inl h
        · rw [hps] at hp
          rcases List.mem_cons.mp hp with heq | hp'
          · refine Or.inr ⟨x :: p₀, ?_, ?_⟩
            · rw [hsx]; exact List.mem_cons_self _ _
            · rw [← heq]; exact List.mem_cons_of_mem _ hcp
          · refine Or.inr ⟨p, ?_, hcp⟩
            rw [hsx]; exact List.mem_cons_of_mem _ hp'

/-- A well-formed dotted quad: exactly four fields, each a nonempty digit
string whose value is at most 255. -/
def wellFormedQuad (s : List Char) : Prop :=
  (pySplit '.' s).length = 4 ∧
  ∀ p ∈ pySplit '.' s,
    p ≠ [] ∧ p.all Char.isDigit = true ∧ digitsToNat p ≤ 255

instance : DecidablePred wellFormedQuad := fun s => by
  unfold wellFormedQuad; infer_instance

/-- `int` accepts a nonempty digit string and yields its value. -/
lemma pyInt_digits {p : List Char} (hne : p ≠ [])
    (hd : p.all Char.isDigit = true) : pyInt p = some ((digitsToNat p : Int)) := by
  cases p with
  | nil => exact absurd rfl hne
  | cons c cs =>
    have hc : c.isDigit = true := by
      simp only [List.all_cons, Bool.and_eq_true] at hd
      exact hd.1
    have hcne : c ≠ '-' := by
      intro h
      rw [h] at hc
      exact absurd hc (by decide)
    simp [pyInt, if_neg hcne, hd]

/-- `stringip_to_number` succeeds whenever every field is a nonempty
digit string. -/
lemma stringip_some {s : List Char}
    (h : ∀ p ∈ pySplit '.' s, p ≠ [] ∧ p.all Char.isDigit = true) :
    ∃ v, stringip_to_number s = some v := by
  unfold stringip_to_number
  suffices H : ∀ (l : List (List Char)) (acc : Int),
      (∀ p ∈ l, p ≠ [] ∧ p.all Char.isDigit = true) →
      ∃ v, l.foldlM (fun total item =>
        (pyInt item).map (fun v => total * 256 + v)) acc = some v by
    exact H _ 0 h
  intro l
  induction l with
  | nil => exact fun acc _ => ⟨acc, rfl⟩
  | cons p ps ih =>
    intro acc hall
    obtain ⟨hne, hd⟩ := hall p (List.mem_cons_self _ _)
    obtain ⟨v, hv⟩ := ih (acc * 256 + (digitsToNat p : Int))
      (fun q hq => hall q (List.mem_cons_of_mem _ hq))
    refine ⟨v, ?_⟩
    rw [List.foldlM_cons, pyInt_digits hne hd]
    simpa using hv

/-- A well-formed dotted quad contains no colon, so it never takes the
IPv6 path. -/
lemma wellFormed_no_colon {s : List Char} (h : wellFormedQuad s) :
    ':' ∉ s := by
  intro hc
  rcases mem_pySplit '.' hc with h' | ⟨p, hp, hcp⟩
  · exact absurd h' (by decide)
  · have hall := (h.2 p hp).2.1
    have : (':'.isDigit) = true := List.all_eq_true.mp hall ':' hcp
    exact absurd this (by decide)

/-! ### The ISP registry and bundle composition -/

/-- A conditional override supplied by a dual-ISP probe result (the inner
`{'ispname': ..., 'filterrule': ...}` dicts of a `test` entry). -/
structure OverrideRule where
  ispname : Option String
  filterrule : Option String
deriving DecidableEq

/-- A `test` entry of an ISP record: the `report` flag plus the
probe-descriptor keys, each mapping numeric result codes to overrides.
As a structure it always models a non-empty (hence truthy) Python dict,
which every `test` value in the registry is. -/
structure TestSpec where
  report : Bool
  probes : List (String × List (Int × OverrideRule))
deriving DecidableEq

/-- One value of the `isps` dict: display name, `server`, `filter` rule,
optional `allow` rule, optional `test` spec.  `filter` is optional in the
model because the composition reads it with `isp.get ('filter')`, though
every configured record carries one. -/
structure IspRecord where
  name : String
  server : String
  filter : Option String
  allow : Option String
  test : Option TestSpec
deriving DecidableEq

/-- The WebAfrica dual-ISP probe shared by the South African records
(the source repeats this literal in each record). -/
def waProbe (dualName : String) : TestSpec :=
  { report := true,
    probes := [("steam.wa.co.za icmp *.wa.co.za",
      [(0, { ispname := some dualName,
             filterrule := some ("*:27030=steam.wa.co.za,steam2.wa.co.za;" ++
               "content?.steampowered.com=steam.wa.co.za,steam2.wa.co.za") })])] }

/-- The filter rule shared by Internode-style records 11, 14, 15, 16. -/
def internodeFilter : String :=
  "*:27030=49.143.234.14,files-oc-syd.games.on.net;" ++
  "content?.steampowered.com=49.143.234.14,files-oc-syd.games.on.net"

/-- The `isps` registry, keyed by ISP index, exactly as in the source. -/
def isps : List (Int × IspRecord) :=
  [(-1, ⟨"Unknown", "203.167.129.4",
         some "# No specific content server for your ISP", none, none⟩),
   (0, ⟨"TelstraClear New Zealand", "203.167.129.4",
        some "*:27030=wlgwpstmcon01.telstraclear.co.nz", none, none⟩),
   (1, ⟨"Orcon New Zealand", "0.0.0.0",
        some "# Orcon no longer have a Steam server", none, none⟩),
   (2, ⟨"Snap! New Zealand", "0.0.0.0",
        some "# Snap! no longer have a Steam server", none, none⟩),
   (3, ⟨"Slingshot New Zealand", "119.224.142.146",
        some "*:27030=119.224.142.146", none, none⟩),
   (4, ⟨"Lightstream, Waikato New Zealand", "202.124.127.66",
        some "*:27030=202.124.127.66", none, none⟩),
   (5, ⟨"Xnet/WorldxChange New Zealand", "58.28.25.146",
        some "*:27030=58.28.25.146", none, none⟩),
   (6, ⟨"ACSData, Wellington NZ", "0.0.0.0",
        some "# No known unmetered Steam server", none, none⟩),
   (7, ⟨"Vodafone New Zealand", "0.0.0.0",
        some "# No known unmetered Steam server", none, none⟩),
   (8, ⟨"Telecom/XTRA New Zealand", "0.0.0.0",
        some "# No known unmetered Steam server", none, none⟩),
   (9, ⟨"InSPire New Zealand", "0.0.0.0",
        some "# Please contribute a server IP for InSPire", none, none⟩),
   (10, ⟨"Telstra BigPond Australia", "0.0.0.0",
         some ("*:27030=203.39.198.136;" ++
           "content?.steampowered.com=203.39.198.136"), none, none⟩),
   (11, ⟨"Internode Australia", "0.0.0.0", some internodeFilter,
         some "//steam.cdn.on.net=*", none⟩),
   (12, ⟨"iiNet Australia", "0.0.0.0",
         some ("*:27030=steam.cdn.on.net;" ++ "content?.steampowered.com="),
         some "//steam.cdn.on.net=*", none⟩),
   (13, ⟨"Optus Australia", "0.0.0.0",
         some ("*:27030=49.143.234.6,49.143.234.14;" ++
           "content?.steampowered.com=49.143.234.6,49.143.234.14"), none, none⟩),
   (14, ⟨"iPrimus Australia", "0.0.0.0", some internodeFilter,
         some "//steam.cdn.on.net=*", none⟩),
   (15, ⟨"Westnet Internet Services (Perth, WA)", "0.0.0.0", some internodeFilter,
         some "//steam.cdn.on.net=*", none⟩),
   (16, ⟨"Adam Internet (Adelaide, SA)", "0.0.0.0", some internodeFilter,
         some "//steam.cdn.on.net=*", none⟩),
   (17, ⟨"EAccess Broadband, Australia", "0.0.0.0",
         some "# No known unmetered Steam server", none, none⟩),
   (30, ⟨"Internet Solutions (Johannesburg, South Africa)", "196.38.180.3",
         some "*:27030=steam.isgaming.co.za", none,
         some (waProbe "WebAfrica/IS dual ISP")⟩),
   (31, ⟨"webafrica (Cape Town, South Africa)", "41.185.24.21",
         some ("*:27030=steam.wa.co.za,steam2.wa.co.za;" ++
           "content?.steampowered.com=steam.wa.co.za,steam2.wa.co.za"),
         none, none⟩),
   (32, ⟨"Telkom SAIX, South Africa", "0.0.0.0",
         some "# No known unmetered Steam server", none,
         some (waProbe "WebAfrica/SAIX dual ISP")⟩),
   (33, ⟨"MWeb, South Africa", "196.28.69.201",
         some "*:27030=196.28.69.201,196.28.169.201", none,
         some (waProbe "WebAfrica/MWeb dual ISP")⟩),
   (34, ⟨"Cybersmart, South Africa", "0.0.0.0",
         some "# No known Steam server for Cybersmart", none,
         some (waProbe "WebAfrica/Cybersmart dual ISP")⟩),
   (40, ⟨"Vodafone Iceland", "193.4.194.101",
         some "*:27030=193.4.194.101", none,
         some { report := true,
                probes := [("193.4.194.101 80",
                  [(0, { ispname := none,
                         filterrule := some ("*:27030=193.4.194.101;" ++
                           "content?.steampowered.com=193.4.194.101") })])] }⟩),
   (50, ⟨"Google, Inc", "0.0.0.0",
         some "# What Steam server do Google use...?", none, none⟩),
   (60, ⟨"Comcast Communications", "0.0.0.0",
         some "# No rules for Comcast, please suggest some!", none, none⟩),
   (61, ⟨"AT&T Internet Services", "0.0.0.0",
         some "# No rules for AT&T, please suggest some!", none, none⟩)]

/-- Python `isps.get (netblock)`: dict lookup by key (keys are pairwise
distinct, so the first hit is the only one). -/
def ispsGet (i : Int) : Option IspRecord :=
  (isps.find? (fun pr => pr.1 == i)).map (·.2)

/-- Python's `x or d` idiom for an optional string `x`: `None` and the
empty string are both falsy and fall back to `d`. -/
def pyOr (x : Option String) (d : String) : String :=
  match x with
  | some s => if s = "" then d else s
  | none => d

/-- `latest_version`. -/
def latest_version : String := "0.6.1.0"

/-- `latest_file`. -/
def latest_file : String := "steamlimit-" ++ latest_version ++ ".exe"

/-- `code_file_base`. -/
def code_file_base : String := "http://steam-limiter.googlecode.com/files/"

/-- The result dict of `bundle`. -/
structure Bundle where
  latest : String
  download : String
  country : String
  ispname : String
  filterip : String
  filterrule : String
  allow : String
  test : Option TestSpec
deriving DecidableEq

/-- The field composition of `bundle` for a resolved record: `filterrule`
is `isp.get ('filter') or isp ['server']`, `allow` is
`isp.get ('allow') or ''`, `country` is the request header `or 'Unknown'`;
`test` is attached only when present (`if test:` — a present test dict
always carries the `report` key, so it is always truthy). -/
def mkBundle (isp : IspRecord) (countryHeader : Option String) : Bundle :=
  { latest := latest_version,
    download := code_file_base ++ latest_file,
    country := pyOr countryHeader "Unknown",
    ispname := isp.name,
    filterip := isp.server,
    filterrule := pyOr isp.filter isp.server,
    allow := pyOr isp.allow "",
    test := isp.test }

/-- `bundle`: classify the source address, look the index up in `isps`,
and compose the result dict.  `none` models an uncaught exception: a
ValueError from address parsing, or the TypeError `isp ['name']` would
raise if the classifier's index were missing from the registry. -/
def bundle (ip : List Char) (countryHeader : Option String) : Option Bundle :=
  match find_netblock (.str ip) with
  | none => none
  | some netblock =>
    match ispsGet netblock with
    | none => none
    | some isp => some (mkBundle isp countryHeader)

/-! ### The claims -/

/-- Claim C1, counterexample: the claim as stated is false.  For the
one-entry table `[10, 20] ↦ 5` (which is sorted, disjoint and has
`low ≤ high`) and the address `a = 10` we have `low ≤ a ≤ high`, yet the
search returns `-1`, not the entry's ISP index: the source compares
`item [0] >= ipv4` and so moves past a range whenever the target equals
its `low` bound. -/
theorem claim_C1_counterexample :
    sortedTable [⟨10, 20, 5⟩] ∧
    (⟨10, 20, 5⟩ : NetblockEntry) ∈ [(⟨10, 20, 5⟩ : NetblockEntry)] ∧
    (⟨10, 20, 5⟩ : NetblockEntry).low ≤ 10 ∧
    (10 : Int) ≤ (⟨10, 20, 5⟩ : NetblockEntry).high ∧
    find_in_table [⟨10, 20, 5⟩] 10 ≠ some (⟨10, 20, 5⟩ : NetblockEntry).isp := by
  decide

/-- Claim C1, amended: for every table satisfying the documented
invariant (sorted ascending by `low`, pairwise disjoint, `low ≤ high`),
the search returns an entry's `ispIndex` exactly when `low < a ≤ high`
(strict at the low bound), and returns `-1` when no entry satisfies
`low < a ≤ high`. -/
theorem claim_C1_amended (t : List NetblockEntry) (a : Int)
    (hs : sortedTable t) :
    (∀ e ∈ t, e.low < a → a ≤ e.high → find_in_table t a = some e.isp) ∧
    ((∀ e ∈ t, ¬(e.low < a ∧ a ≤ e.high)) → find_in_table t a = some (-1)) :=
  ⟨fun _ he h1 h2 => search_hits hs he h1 h2, fun h => search_misses hs h⟩

/-- Claim C1, witness: the amended theorem applied to a concrete
two-entry table, once inside a range and once in a gap. -/
theorem claim_C1_witness :
    find_in_table [⟨10, 20, 5⟩, ⟨30, 40, 7⟩] 15 = some 5 ∧
    find_in_table [⟨10, 20, 5⟩, ⟨30, 40, 7⟩] 25 = some (-1) :=
  ⟨(claim_C1_amended [⟨10, 20, 5⟩, ⟨30, 40, 7⟩] 15 (by decide)).1
      ⟨10, 20, 5⟩ (by decide) (by decide) (by decide),
   (claim_C1_amended [⟨10, 20, 5⟩, ⟨30, 40, 7⟩] 25 (by decide)).2 (by decide)⟩

/-- Claim C2, counterexample: the claim as stated is false.  In the
table `[10, 20] ↦ 5`, the addresses `10 < 11` both lie inside the range
`[10, 20]`, yet the search classifies `10` as `-1` (the low endpoint is
excluded by the `>=` comparison) and `11` as `5`. -/
theorem claim_C2_counterexample :
    sortedTable [⟨10, 20, 5⟩] ∧
    (⟨10, 20, 5⟩ : NetblockEntry) ∈ [(⟨10, 20, 5⟩ : NetblockEntry)] ∧
    (10 : Int) < 11 ∧
    (⟨10, 20, 5⟩ : NetblockEntry).low ≤ 10 ∧
    (10 : Int) ≤ (⟨10, 20, 5⟩ : NetblockEntry).high ∧
    (⟨10, 20, 5⟩ : NetblockEntry).low ≤ 11 ∧
    (11 : Int) ≤ (⟨10, 20, 5⟩ : NetblockEntry).high ∧
    find_in_table [⟨10, 20, 5⟩] 10 ≠ find_in_table [⟨10, 20, 5⟩] 11 := by
  decide

/-- Claim C2, amended: two addresses `a < b` that both lie strictly
inside the same configured range (`low < a` and `low < b`, both at most
`high`) classify to the same ISP index. -/
theorem claim_C2_amended (t : List NetblockEntry) (e : NetblockEntry)
    (a b : Int) (hs : sortedTable t) (he : e ∈ t) (_hab : a < b)
    (ha1 : e.low < a) (ha2 : a ≤ e.high)
    (hb1 : e.low < b) (hb2 : b ≤ e.high) :
    find_in_table t a = find_in_table t b := by
  rw [search_hits hs he ha1 ha2, search_hits hs he hb1 hb2]

/-- Claim C2, witness: the amended theorem at `a = 12 < b = 13` inside
the range `[10, 20]`. -/
theorem claim_C2_witness :
    find_in_table [⟨10, 20, 5⟩] 12 = find_in_table [⟨10, 20, 5⟩] 13 :=
  claim_C2_amended [⟨10, 20, 5⟩] ⟨10, 20, 5⟩ 12 13 (by decide) (by decide)
    (by decide) (by decide) (by decide) (by decide) (by decide)

/-- Claim C3, evaluation at the failing input: `stringip_to_number`
accepts the out-of-range octet in `"999.1.1.1"` without any validation
and folds it into the (not even 32-bit) value 16760504577, and
`find_netblock` then returns the numeric result `-1` instead of failing:
classification does not fail explicitly on malformed input. -/
theorem claim_C3_eval :
    stringip_to_number ("999.1.1.1".toList) = some 16760504577 ∧
    (4294967295 : Int) < 16760504577 ∧
    find_netblock (.str ("999.1.1.1".toList)) = some (-1) := by
  decide

/-- Claim C6: the loopback literal is substituted by the fixed test
address `203.167.129.4` before classification, so both classify alike,
to the fixed index 0 (TelstraClear), which is not the Unknown index
`-1`.  `find_netblock` is a pure function, so the result is the same on
every call. -/
theorem claim_C6 :
    find_netblock (.str loopbackStr) = find_netblock (.str testIpStr) ∧
    find_netblock (.str loopbackStr) = some 0 ∧ (0 : Int) ≠ -1 := by
  decide

/-- Claim C8: the binary search is well-defined on every sorted disjoint
table: any fuel of at least `length + 1` iterations yields the same
result as the canonical run (each iteration strictly shrinks
`[low, high]`, so the interval size bounds the iteration count), that
result is never `none`, and at most one range can contain any address. -/
theorem claim_C8 (t : List NetblockEntry) (a : Int) (hs : sortedTable t) :
    (∀ fuel : Nat, t.length + 1 ≤ fuel →
      find_loop t a fuel 0 ((t.length : Int) - 1) = find_in_table t a) ∧
    (find_in_table t a).isSome = true ∧
    (∀ e₁ ∈ t, ∀ e₂ ∈ t, e₁.low ≤ a → a ≤ e₁.high → e₂.low ≤ a →
      a ≤ e₂.high → e₁ = e₂) := by
  have hc := sortedTable_chain hs
  have hrun := fun (fuel : Nat) (hf : t.length + 1 ≤ fuel) =>
    find_loop_correct t a hc hs.2.2 fuel 0 ((t.length : Int) - 1)
      (by omega) (by omega) (by omega)
      (by intro j _ hj; omega) (by intro j hjlen hj; omega)
  refine ⟨?_, ?_, ?_⟩
  · intro fuel hf
    rcases hrun fuel hf with ⟨j₁, hj₁, hm₁, hm₁', hres₁⟩ | ⟨hno₁, hres₁⟩ <;>
      rcases hrun (t.length + 1) (by omega) with
        ⟨j₂, hj₂, hm₂, hm₂', hres₂⟩ | ⟨hno₂, hres₂⟩
    · have : j₁ = j₂ := strict_match_unique hc hj₁ hj₂ ⟨hm₁, hm₁'⟩ ⟨hm₂, hm₂'⟩
      rw [hres₁, find_in_table, hres₂, this]
    · exact absurd ⟨hm₁, hm₁'⟩ (hno₂ j₁ hj₁)
    · exact absurd ⟨hm₂, hm₂'⟩ (hno₁ j₂ hj₂)
    · rw [hres₁, find_in_table, hres₂]
  · rcases hrun (t.length + 1) (by omega) with ⟨_, _, _, _, hres⟩ | ⟨_, hres⟩ <;>
      rw [find_in_table, hres] <;> rfl
  · intro e₁ h₁ e₂ h₂ hm₁ hm₁' hm₂ hm₂'
    obtain ⟨i, hi, hie⟩ := List.mem_iff_getElem.mp h₁
    obtain ⟨j, hj, hje⟩ := List.mem_iff_getElem.mp h₂
    rcases Nat.lt_trichotomy i j with hij | hij | hij
    · exfalso
      have hd := List.pairwise_iff_getElem.mp hs.2.1 i j hi hj hij
      rw [hie, hje] at hd
      rcases hd with hd | hd <;> omega
    · subst hij
      rw [← hie, ← hje]
    · exfalso
      have hd := List.pairwise_iff_getElem.mp hs.2.1 j i hj hi hij
      rw [hie, hje] at hd
      rcases hd with hd | hd <;> omega

/-- Claim C8, witness: the theorem applied to a concrete table and
address. -/
theorem claim_C8_witness :
    (find_in_table [⟨10, 20, 5⟩] 15).isSome = true :=
  (claim_C8 [⟨10, 20, 5⟩] 15 (by decide)).2.1

/-- Claim C9: a well-formed dotted-quad string other than the loopback
literal classifies exactly as its packed numeric value does: the string
is parsed by `stringip_to_number` and handed to the same binary search
the numeric input goes to directly. -/
theorem claim_C9 (s : List Char) (hwf : wellFormedQuad s)
    (hnl : s ≠ loopbackStr) :
    ∃ v, stringip_to_number s = some v ∧
      find_netblock (.str s) = find_netblock (.num v) := by
  have hcol : ':' ∉ s := wellFormed_no_colon hwf
  obtain ⟨v, hv⟩ := stringip_some
    (fun p hp => ⟨(hwf.2 p hp).1, (hwf.2 p hp).2.1⟩)
  refine ⟨v, hv, ?_⟩
  show find_netblock_str (substAddr s) = find_in_table ip_table v
  rw [substAddr, if_neg hnl]
  unfold find_netblock_str
  rw [if_neg hcol, hv]

/-- Claim C9, witness: the theorem at the concrete address `8.8.8.8`. -/
theorem claim_C9_witness :
    ∃ v, stringip_to_number ("8.8.8.8".toList) = some v ∧
      find_netblock (.str ("8.8.8.8".toList)) = find_netblock (.num v) :=
  claim_C9 ("8.8.8.8".toList) (by decide) (by decide)

/-- Claim C10: IPv6 classification is case-insensitive: any two address
strings containing a colon with the same upper-casing (i.e. case
variants of each other) classify identically, since the prefix scan only
ever sees the upper-cased address. -/
theorem claim_C10 (s t : List Char) (hcol : ':' ∈ s)
    (hcase : pyUpper s = pyUpper t) :
    find_netblock (.str s) = find_netblock (.str t) := by
  have hns : s ≠ loopbackStr := by
    intro he; rw [he] at hcol; exact absurd hcol (by decide)
  have hcolt : ':' ∈ t := by
    have h1 : ':' ∈ pyUpper s := List.mem_map.mpr ⟨':', hcol, by decide⟩
    rw [hcase] at h1
    obtain ⟨d, hd, hud⟩ := List.mem_map.mp h1
    rwa [upperChar_eq_colon hud] at hd
  have hnt : t ≠ loopbackStr := by
    intro he; rw [he] at hcolt; exact absurd hcolt (by decide)
  show find_netblock_str (substAddr s) = find_netblock_str (substAddr t)
  rw [substAddr, substAddr, if_neg hns, if_neg hnt]
  unfold find_netblock_str
  rw [if_pos hcol, if_pos hcolt, hcase]

/-- Claim C10, witness: the theorem at a lower-case variant of the iiNet
IPv6 scenario address. -/
theorem claim_C10_witness :
    find_netblock (.str ("2001:4478:abcd::1".toList)) =
      find_netblock (.str ("2001:4478:ABCD::1".toList)) :=
  claim_C10 ("2001:4478:abcd::1".toList) ("2001:4478:ABCD::1".toList)
    (by decide) (by decide)

/-- Claim C4: an address that matches no configured IPv4 range (taking
the hypothesis with the spec's inclusive containment) and no configured
IPv6 prefix classifies to `-1`, and the bundle resolves it to the
Unknown record's name and default rule without failing. -/
theorem claim_C4 (s : List Char) (ch : Option String)
    (hv6 : ':' ∈ substAddr s → scan_v6 (pyUpper (substAddr s)) = none)
    (hv4 : ':' ∉ substAddr s → ∃ v, stringip_to_number (substAddr s) = some v ∧
      ∀ e ∈ ip_table, ¬(e.low ≤ v ∧ v ≤ e.high)) :
    find_netblock (.str s) = some (-1) ∧
    ∃ b, bundle s ch = some b ∧ b.ispname = "Unknown" ∧
      b.filterrule = "# No specific content server for your ISP" := by
  have hfind : find_netblock (.str s) = some (-1) := by
    show find_netblock_str (substAddr s) = some (-1)
    unfold find_netblock_str
    by_cases hc : ':' ∈ substAddr s
    · rw [if_pos hc, hv6 hc]
    · obtain ⟨v, hv, hmiss⟩ := hv4 hc
      rw [if_neg hc, hv]
      exact search_misses (by decide)
        (fun e he hm => hmiss e he ⟨le_of_lt hm.1, hm.2⟩)
  have hu : ispsGet (-1) = some ⟨"Unknown", "203.167.129.4",
      some "# No specific content server for your ISP", none, none⟩ := by
    decide
  refine ⟨hfind, ?_⟩
  simp only [bundle, hfind, hu]
  exact ⟨_, rfl, rfl, rfl⟩

/-- Claim C4, witness: the theorem at `8.8.8.8`, which is in no modelled
range and has no colon. -/
theorem claim_C4_witness :
    find_netblock (.str ("8.8.8.8".toList)) = some (-1) ∧
    ∃ b, bundle ("8.8.8.8".toList) none = some b ∧ b.ispname = "Unknown" ∧
      b.filterrule = "# No specific content server for your ISP" :=
  claim_C4 ("8.8.8.8".toList) none (fun h => absurd h (by decide))
    (fun _ => ⟨134744072, by decide, by decide⟩)

/-- Claim C5: for every record the bundle composition resolves, the
bundle copies the record's name and server, takes the record's filter
rule (falling back to the server only when there is none — every
configured filter rule is non-empty, so Python's `or` never falls back
spuriously), takes the record's allow rule or the empty string, defaults
the country to the literal `"Unknown"` when no header is supplied, and
carries the record's test spec exactly when the record has one. -/
theorem claim_C5 (ip : List Char) (i : Int) (r : IspRecord)
    (h1 : find_netblock (.str ip) = some i) (h2 : ispsGet i = some r) :
    bundle ip none = some
      { latest := latest_version,
        download := code_file_base ++ latest_file,
        country := "Unknown",
        ispname := r.name,
        filterip := r.server,
        filterrule := (match r.filter with | some f => f | none => r.server),
        allow := (match r.allow with | some al => al | none => ""),
        test := r.test } := by
  have hmem : (i, r) ∈ isps := by
    obtain ⟨pr, hpr, hpr2⟩ := Option.map_eq_some'.mp h2
    have hkey : pr.1 = i := by
      have := List.find?_some hpr
      exact beq_iff_eq.mp this
    have hpr' : pr = (i, r) := Prod.ext hkey hpr2
    rw [← hpr']
    exact List.mem_of_find?_eq_some hpr
  have hok : r.filter ≠ some "" ∧ r.allow ≠ some "" := by
    have hall : ∀ pr ∈ isps, pr.2.filter ≠ some "" ∧ pr.2.allow ≠ some "" := by
      decide
    exact hall (i, r) hmem
  have hfr : pyOr r.filter r.server =
      (match r.filter with | some f => f | none => r.server) := by
    rcases hf : r.filter with _ | f
    · rfl
    · have : f ≠ "" := by
        intro h
        rw [hf, h] at hok
        exact hok.1 rfl
      simp [pyOr, this]
  have hal : pyOr r.allow "" =
      (match r.allow with | some al => al | none => "") := by
    rcases ha : r.allow with _ | al
    · rfl
    · have : al ≠ "" := by
        intro h
        rw [ha, h] at hok
        exact hok.2 rfl
      simp [pyOr, this]
  simp only [bundle, h1, h2, mkBundle, hfr, hal]
  rfl

/-- Claim C5, witness: the composition at `8.8.8.8`, which resolves to
the Unknown record. -/
theorem claim_C5_witness :
    bundle ("8.8.8.8".toList) none = some
      { latest := latest_version,
        download := code_file_base ++ latest_file,
        country := "Unknown",
        ispname := "Unknown",
        filterip := "203.167.129.4",
        filterrule := "# No specific content server for your ISP",
        allow := "",
        test := none } :=
  claim_C5 ("8.8.8.8".toList) (-1)
    ⟨"Unknown", "203.167.129.4",
     some "# No specific content server for your ISP", none, none⟩
    (by decide) (by decide)

/-- Claim C7: every address whose upper-cased form starts with the
configured prefix `2001:4478:` classifies to ISP index 12 and resolves
to the name `iiNet Australia` (in particular `2001:4478:ABCD::1`, see
the witness). -/
theorem claim_C7 (s : List Char) (ch : Option String)
    (h : pyStartswith ("2001:4478:".toList) (pyUpper s) = true) :
    find_netblock (.str s) = some 12 ∧
    ∃ b, bundle s ch = some b ∧ b.ispname = "iiNet Australia" := by
  have hnl : s ≠ loopbackStr := by
    intro he
    rw [he] at h
    exact absurd h (by decide)
  have hcol : ':' ∈ s := by
    have hm : pyStartswith ("2001:4478:".toList) (s.map upperChar) = true := h
    obtain ⟨d, hd, hud⟩ := pyStartswith_map hm ':' (by decide)
    rwa [upperChar_eq_colon hud] at hd
  have hne : pyStartswith ("2001:4400:".toList) (pyUpper s) ≠ true := by
    intro htrue
    have := pyStartswith_eq htrue h (by decide)
    exact absurd this (by decide)
  have hscan : scan_v6 (pyUpper s) = some 12 := by
    unfold scan_v6 ipv6_prefixes
    rw [List.find?_cons_of_neg _ (by simpa using hne),
      List.find?_cons_of_pos _ (by simpa using h)]
  have hfind : find_netblock (.str s) = some 12 := by
    show find_netblock_str (substAddr s) = some 12
    rw [substAddr, if_neg hnl]
    unfold find_netblock_str
    rw [if_pos hcol, hscan]
  have h12 : ispsGet 12 = some ⟨"iiNet Australia", "0.0.0.0",
      some ("*:27030=steam.cdn.on.net;" ++ "content?.steampowered.com="),
      some "//steam.cdn.on.net=*", none⟩ := by
    decide
  refine ⟨hfind, ?_⟩
  simp only [bundle, hfind, h12]
  exact ⟨_, rfl, rfl⟩

/-- Claim C7, witness: the scenario address `2001:4478:ABCD::1`. -/
theorem claim_C7_witness :
    find_netblock (.str ("2001:4478:ABCD::1".toList)) = some 12 ∧
    ∃ b, bundle ("2001:4478:ABCD::1".toList) none = some b ∧
      b.ispname = "iiNet Australia" :=
  claim_C7 ("2001:4478:ABCD::1".toList) none (by decide)

end SteamLimiter
